import Mathlib

/-!
Verification of the Krippendorff-alpha engine of `cal_score.py`.

The core of the repository is the function `krippendorff_alpha` together
with the three distance metrics `nominal_metric`, `interval_metric` and
`ratio_metric`.  We embed them shallowly:

* rating values after conversion are rationals (`ℚ`), standing in for the
  Python floats; all concrete values appearing in the claims are exactly
  representable;
* a coder rating group is either a mapping from item identifier to raw
  value (a Python dict, embedded as an association list in iteration
  order) or a positional sequence of raw values (`enumerate` in the
  source synthesizes integer keys);
* the `units` dict built by the normalization loop is embedded as an
  association list in insertion order, exactly mirroring the
  `units[it].append(...)` updates of the source;
* the flag `np_metric` (numpy available and the metric is one of the
  three built-ins, or `force_vecmath` was passed) is taken as an explicit
  boolean parameter; the source computes it from runtime function
  identity, which has no counterpart in the embedding;
* the `ValueError("No items to compare.")` raised at `n == 0` becomes the
  `Except.error` branch of the result.
-/

namespace CalScore

/-- `nominal_metric(a, b) = a != b` — the boolean is consumed as 1/0 by the
arithmetic in `krippendorff_alpha`. -/
def nominal_metric (a b : ℚ) : ℚ := if a ≠ b then 1 else 0

/-- `interval_metric(a, b) = (a - b) ** 2`. -/
def interval_metric (a b : ℚ) : ℚ := (a - b) ^ 2

/-- `ratio_metric(a, b) = ((a - b) / (a + b)) ** 2`.  The division is the
total division of `ℚ` (yielding 0 at a + b = 0); the source performs the
numeric environment's division with no guard. -/
def ratio_metric (a b : ℚ) : ℚ := ((a - b) / (a + b)) ^ 2

/-- A coder rating group: either a mapping from item identifier to raw
value (`d.items()` in the source) or a positional sequence
(`enumerate(d)` in the source). -/
inductive RatingGroup (α β : Type) where
  | keyed : List (α × β) → RatingGroup α β
  | positional : List β → RatingGroup α β

variable {α β : Type}

/-- The (item, value) pairs a group contributes: a keyed group yields its
pairs directly, a positional sequence is enumerated with integer keys
starting at 0, injected into the item-identifier type by `toKey`. -/
def groupPairs (toKey : ℕ → α) : RatingGroup α β → List (α × β)
  | RatingGroup.keyed kvs => kvs
  | RatingGroup.positional s => s.enum.map fun p => (toKey p.1, p.2)

/-- `units[it].append(v)` with `units` an insertion-ordered dict: append
`v` to the list of the first entry with key `it`, or add a fresh entry
`(it, [v])` at the end. -/
def addRating [DecidableEq α] : List (α × List ℚ) → α → ℚ → List (α × List ℚ)
  | [], it, v => [(it, [v])]
  | (k, vs) :: rest, it, v =>
    if k = it then (k, vs ++ [v]) :: rest
    else (k, vs) :: addRating rest it v

/-- One iteration of the inner normalization loop: skip the pair when the
value is a missing-value sentinel, otherwise convert it and store it
under its item key. -/
def processPair [DecidableEq α] [DecidableEq β] (convert : β → ℚ) (maskitems : List β)
    (units : List (α × List ℚ)) (p : α × β) : List (α × List ℚ) :=
  if p.2 ∈ maskitems then units else addRating units p.1 (convert p.2)

/-- The normalization loops of `krippendorff_alpha` (lines 68–84): fold
every group's pairs into the `units` dict, starting from empty. -/
def normalizeUnits [DecidableEq α] [DecidableEq β] (toKey : ℕ → α) (convert : β → ℚ)
    (maskitems : List β) (data : List (RatingGroup α β)) : List (α × List ℚ) :=
  data.foldl (fun units d => (groupPairs toKey d).foldl (processPair convert maskitems) units) []

/-- Line 86: keep only units with pairable values (more than one rating). -/
def pairableUnits [DecidableEq α] [DecidableEq β] (toKey : ℕ → α) (convert : β → ℚ)
    (maskitems : List β) (data : List (RatingGroup α β)) : List (α × List ℚ) :=
  (normalizeUnits toKey convert maskitems data).filter fun p => 1 < p.2.length

/-- Line 87: `n = sum(len(pv) for pv in units.values())`. -/
def totalValues (units : List (α × List ℚ)) : ℕ :=
  (units.map fun p => p.2.length).sum

/-- The per-unit sum `Du` of the observed-disagreement loop (lines
96–100): the vectorized branch sums `np.sum(metric(gr, gri))` over
`gri in gr`, the scalar branch sums `metric(gi, gj)` over both
generators. -/
def duCalc (metric : ℚ → ℚ → ℚ) (npm : Bool) (grades : List ℚ) : ℚ :=
  if npm then
    (grades.map fun gri => (grades.map fun g => metric g gri).sum).sum
  else
    (grades.map fun gi => (grades.map fun gj => metric gi gj).sum).sum

/-- The numerator of `Do` (lines 94–101): accumulate
`Du / float(len(grades) - 1)` over all units. -/
def observedNum (metric : ℚ → ℚ → ℚ) (npm : Bool) (units : List (α × List ℚ)) : ℚ :=
  units.foldl (fun acc p => acc + duCalc metric npm p.2 / ((p.2.length : ℚ) - 1)) 0

/-- The inner contribution of the expected-disagreement loop (lines
109–115) for one pair of units: the vectorized branch sums
`np.sum(metric(d1, gj))` over `gj in g2`, the scalar branch sums
`metric(gi, gj)` over both generators. -/
def deCalc (metric : ℚ → ℚ → ℚ) (npm : Bool) (g1 g2 : List ℚ) : ℚ :=
  if npm then
    (g2.map fun gj => (g1.map fun gi => metric gi gj).sum).sum
  else
    (g1.map fun gi => (g2.map fun gj => metric gi gj).sum).sum

/-- The numerator of `De` (lines 107–115): accumulate the pairwise
contribution over every ordered pair of units. -/
def expectedNum (metric : ℚ → ℚ → ℚ) (npm : Bool) (units : List (α × List ℚ)) : ℚ :=
  units.foldl (fun acc p1 => units.foldl (fun acc2 p2 => acc2 + deCalc metric npm p1.2 p2.2) acc) 0

/-- `krippendorff_alpha` (lines 37–118).  `toKey` injects the synthesized
positional keys into the item-identifier type; `npm` is the `np_metric`
flag of line 92; `convert` is `convert_items`; `maskitems` the list of
missing-value sentinels.  The `ValueError` of line 90 is the `error`
branch.  Lines 94–118 follow the source: `Do` is the accumulated
numerator divided by `n`; if `Do == 0` return 1 at once; otherwise
compute `De`, divide by `n * (n - 1)`, and return
`1 - Do / De if (Do and De) else 1`. -/
def krippendorff_alpha [DecidableEq α] [DecidableEq β] (toKey : ℕ → α)
    (data : List (RatingGroup α β)) (metric : ℚ → ℚ → ℚ) (npm : Bool)
    (convert : β → ℚ) (maskitems : List β) : Except String ℚ :=
  let units := pairableUnits toKey convert maskitems data
  let n : ℕ := totalValues units
  if n = 0 then Except.error "No items to compare."
  else
    let Do := observedNum metric npm units / (n : ℚ)
    if Do = 0 then Except.ok 1
    else
      let De := expectedNum metric npm units / ((n : ℚ) * ((n : ℚ) - 1))
      Except.ok (if Do ≠ 0 ∧ De ≠ 0 then 1 - Do / De else 1)

/-- The `Do` value of lines 94–102: accumulated per-unit disagreement
divided by `n`, as computed inside `krippendorff_alpha`. -/
def alphaDo [DecidableEq α] [DecidableEq β] (toKey : ℕ → α) (data : List (RatingGroup α β))
    (metric : ℚ → ℚ → ℚ) (npm : Bool) (convert : β → ℚ) (maskitems : List β) : ℚ :=
  observedNum metric npm (pairableUnits toKey convert maskitems data)
    / (totalValues (pairableUnits toKey convert maskitems data) : ℚ)

/-- The `De` value of lines 107–116: accumulated cross-product
disagreement divided by `n * (n - 1)`, as computed inside
`krippendorff_alpha`. -/
def alphaDe [DecidableEq α] [DecidableEq β] (toKey : ℕ → α) (data : List (RatingGroup α β))
    (metric : ℚ → ℚ → ℚ) (npm : Bool) (convert : β → ℚ) (maskitems : List β) : ℚ :=
  expectedNum metric npm (pairableUnits toKey convert maskitems data)
    / ((totalValues (pairableUnits toKey convert maskitems data) : ℚ)
        * ((totalValues (pairableUnits toKey convert maskitems data) : ℚ) - 1))

/-! ### Spec-side formulations

These definitions follow the spec's wording, to be compared with the
loop-based computations embedded from the source. -/

/-- The spec's "sum of the metric applied to every ordered pair of
ratings", one rating drawn from `g1` and one from `g2`. -/
def orderedPairSum (metric : ℚ → ℚ → ℚ) (g1 g2 : List ℚ) : ℚ :=
  (g1.map fun gi => (g2.map fun gj => metric gi gj).sum).sum

/-- Observed disagreement as the spec words it: per item, the ordered-pair
sum of the metric over the item's list divided by (k − 1), accumulated
over items, the total divided by `n`. -/
def observedDisagreementSpec (metric : ℚ → ℚ → ℚ) (units : List (α × List ℚ)) (n : ℕ) : ℚ :=
  ((units.map fun p => orderedPairSum metric p.2 p.2 / ((p.2.length : ℚ) - 1)).sum) / (n : ℚ)

/-- Expected disagreement as the spec words it: the metric summed over
every ordered pair drawn from the full cross-product of all items'
rating lists, divided by `n * (n − 1)`. -/
def expectedDisagreementSpec (metric : ℚ → ℚ → ℚ) (units : List (α × List ℚ)) (n : ℕ) : ℚ :=
  ((units.map fun p1 => (units.map fun p2 => orderedPairSum metric p1.2 p2.2).sum).sum)
    / ((n : ℚ) * ((n : ℚ) - 1))

/-! ### Generic sum lemmas -/

theorem foldl_add_eq_sum {γ M : Type} [AddCommMonoid M] (f : γ → M) (l : List γ) (init : M) :
    l.foldl (fun acc x => acc + f x) init = init + (l.map f).sum := by
  induction l generalizing init with
  | nil => simp
  | cons a l ih => simp [ih, add_assoc]

theorem foldl_foldl_add_eq_sum {γ δ M : Type} [AddCommMonoid M] (G : γ → δ → M)
    (l1 : List γ) (l2 : List δ) (init : M) :
    l1.foldl (fun acc p1 => l2.foldl (fun acc2 p2 => acc2 + G p1 p2) acc) init
      = init + (l1.map fun p1 => (l2.map fun p2 => G p1 p2).sum).sum := by
  induction l1 generalizing init with
  | nil => simp
  | cons a l ih => simp [ih, foldl_add_eq_sum, add_assoc]

theorem sum_map_swap (m : ℚ → ℚ → ℚ) (l1 l2 : List ℚ) :
    (l1.map fun a => (l2.map fun b => m a b).sum).sum
      = (l2.map fun b => (l1.map fun a => m a b).sum).sum := by
  induction l1 with
  | nil => simp
  | cons a l ih => simp [ih, List.sum_map_add]

/-! ### The two evaluation paths coincide -/

theorem duCalc_eq_scalar (metric : ℚ → ℚ → ℚ) (npm : Bool) (grades : List ℚ) :
    duCalc metric npm grades = duCalc metric false grades := by
  cases npm
  · rfl
  · simp only [duCalc, if_true, if_false, Bool.false_eq_true]
    exact (sum_map_swap metric grades grades).symm

theorem deCalc_eq_scalar (metric : ℚ → ℚ → ℚ) (npm : Bool) (g1 g2 : List ℚ) :
    deCalc metric npm g1 g2 = deCalc metric false g1 g2 := by
  cases npm
  · rfl
  · simp only [deCalc, if_true, if_false, Bool.false_eq_true]
    exact (sum_map_swap metric g1 g2).symm

theorem observedNum_eq_sum (metric : ℚ → ℚ → ℚ) (npm : Bool) (units : List (α × List ℚ)) :
    observedNum metric npm units
      = (units.map fun p => duCalc metric npm p.2 / ((p.2.length : ℚ) - 1)).sum := by
  simpa using foldl_add_eq_sum (fun p : α × List ℚ => duCalc metric npm p.2 / ((p.2.length : ℚ) - 1)) units 0

theorem expectedNum_eq_sum (metric : ℚ → ℚ → ℚ) (npm : Bool) (units : List (α × List ℚ)) :
    expectedNum metric npm units
      = (units.map fun p1 => (units.map fun p2 => deCalc metric npm p1.2 p2.2).sum).sum := by
  simpa using foldl_foldl_add_eq_sum (fun p1 p2 : α × List ℚ => deCalc metric npm p1.2 p2.2) units units 0

/-! ### Claims C2, C3, C7, C8 -/

/-- Claim C2: for every pairable item ratings mapping and metric, the
observed disagreement `Do` computed by `krippendorff_alpha` equals, per
item list of length k, the sum of the metric over every ordered pair of
ratings within the list divided by (k − 1), accumulated over items, the
total divided by `n`, the total pairable rating count. -/
theorem observed_disagreement_matches_spec [DecidableEq α] [DecidableEq β] (toKey : ℕ → α)
    (data : List (RatingGroup α β)) (metric : ℚ → ℚ → ℚ) (npm : Bool)
    (convert : β → ℚ) (maskitems : List β) :
    alphaDo toKey data metric npm convert maskitems
      = observedDisagreementSpec metric (pairableUnits toKey convert maskitems data)
          (totalValues (pairableUnits toKey convert maskitems data)) := by
  rw [alphaDo, observedDisagreementSpec, observedNum_eq_sum]
  congr 1
  apply congrArg List.sum
  apply List.map_congr_left
  intro p _
  rw [duCalc_eq_scalar]
  rfl

/-- Claim C3: for every pairable item ratings mapping and metric, the
expected disagreement `De` computed by `krippendorff_alpha` equals the
metric summed over every ordered pair of ratings drawn from the full
cross-product of all items' rating lists (every item against every item,
including an item against itself), divided by `n * (n − 1)`. -/
theorem expected_disagreement_matches_spec [DecidableEq α] [DecidableEq β] (toKey : ℕ → α)
    (data : List (RatingGroup α β)) (metric : ℚ → ℚ → ℚ) (npm : Bool)
    (convert : β → ℚ) (maskitems : List β) :
    alphaDe toKey data metric npm convert maskitems
      = expectedDisagreementSpec metric (pairableUnits toKey convert maskitems data)
          (totalValues (pairableUnits toKey convert maskitems data)) := by
  rw [alphaDe, expectedDisagreementSpec, expectedNum_eq_sum]
  congr 1
  apply congrArg List.sum
  apply List.map_congr_left
  intro p1 _
  apply congrArg List.sum
  apply List.map_congr_left
  intro p2 _
  rw [deCalc_eq_scalar]
  rfl

/-- Claim C7: the vectorized evaluation path (the `np_metric` branches of
the `Do` and `De` loops) produces results identical to the scalar
element-by-element path, for both disagreement sums and for the final
coefficient. -/
theorem vectorized_matches_scalar [DecidableEq α] [DecidableEq β] (toKey : ℕ → α)
    (data : List (RatingGroup α β)) (metric : ℚ → ℚ → ℚ)
    (convert : β → ℚ) (maskitems : List β) (units : List (α × List ℚ)) :
    observedNum metric true units = observedNum metric false units
    ∧ expectedNum metric true units = expectedNum metric false units
    ∧ krippendorff_alpha toKey data metric true convert maskitems
        = krippendorff_alpha toKey data metric false convert maskitems := by
  have hdu : ∀ (u : List (α × List ℚ)), observedNum metric true u = observedNum metric false u := by
    intro u
    rw [observedNum_eq_sum, observedNum_eq_sum]
    congr 1
    apply List.map_congr_left
    intro p _
    rw [duCalc_eq_scalar]
  have hde : ∀ (u : List (α × List ℚ)), expectedNum metric true u = expectedNum metric false u := by
    intro u
    rw [expectedNum_eq_sum, expectedNum_eq_sum]
    congr 1
    apply List.map_congr_left
    intro p1 _
    congr 1
    apply List.map_congr_left
    intro p2 _
    rw [deCalc_eq_scalar]
  refine ⟨hdu units, hde units, ?_⟩
  unfold krippendorff_alpha
  simp only [hdu, hde]

/-- Claim C8: for converted values with a + b ≠ 0, `ratio_metric a b`
equals ((a − b) / (a + b))²; there is no special-casing of a + b = 0 in
the metric or the core, so the numeric environment's division semantics
apply there (total division in this embedding). -/
theorem ratio_metric_formula (a b : ℚ) (h : a + b ≠ 0) :
    ratio_metric a b * (a + b) ^ 2 = (a - b) ^ 2
    ∧ ratio_metric a b = ((a - b) / (a + b)) ^ 2 := by
  refine ⟨?_, rfl⟩
  rw [ratio_metric]
  field_simp

theorem ratio_metric_formula_witness :
    (1 : ℚ) + 2 ≠ 0
    ∧ (ratio_metric 1 2 * ((1 : ℚ) + 2) ^ 2 = ((1 : ℚ) - 2) ^ 2
        ∧ ratio_metric 1 2 = (((1 : ℚ) - 2) / ((1 : ℚ) + 2)) ^ 2) :=
  ⟨by norm_num, ratio_metric_formula 1 2 (by norm_num)⟩

/-! ### Claims C4 and C1 -/

theorem totalValues_eq_zero_iff [DecidableEq α] [DecidableEq β] (toKey : ℕ → α)
    (convert : β → ℚ) (maskitems : List β) (data : List (RatingGroup α β)) :
    totalValues (pairableUnits toKey convert maskitems data) = 0
      ↔ pairableUnits toKey convert maskitems data = [] := by
  constructor
  · intro h
    by_contra hne
    obtain ⟨p, hp⟩ := List.exists_mem_of_ne_nil _ hne
    have hlen : 1 < p.2.length := by
      have := List.of_mem_filter hp
      simpa using this
    have hzero : p.2.length = 0 := by
      have hmem : p.2.length ∈ (pairableUnits toKey convert maskitems data).map fun q => q.2.length :=
        List.mem_map.mpr ⟨p, hp, rfl⟩
      exact List.sum_eq_zero_iff.mp h _ hmem
    omega
  · intro h
    simp [totalValues, h]

/-- Claim C4: `krippendorff_alpha` raises the insufficient-data error iff
after filtering, zero items remain with at least two valid ratings
(equivalently, zero pairable rating values); in every other case it
returns a coefficient. -/
theorem insufficient_data_error_iff [DecidableEq α] [DecidableEq β] (toKey : ℕ → α)
    (data : List (RatingGroup α β)) (metric : ℚ → ℚ → ℚ) (npm : Bool)
    (convert : β → ℚ) (maskitems : List β) :
    (krippendorff_alpha toKey data metric npm convert maskitems
        = Except.error "No items to compare."
      ↔ pairableUnits toKey convert maskitems data = [])
    ∧ (krippendorff_alpha toKey data metric npm convert maskitems
        = Except.error "No items to compare."
      ↔ totalValues (pairableUnits toKey convert maskitems data) = 0)
    ∧ (pairableUnits toKey convert maskitems data ≠ []
      → ∃ r, krippendorff_alpha toKey data metric npm convert maskitems = Except.ok r) := by
  unfold krippendorff_alpha
  by_cases hn : totalValues (pairableUnits toKey convert maskitems data) = 0
  · rw [totalValues_eq_zero_iff] at hn
    simp [hn, totalValues]
  · have hne : pairableUnits toKey convert maskitems data ≠ [] := by
      intro h
      exact hn ((totalValues_eq_zero_iff toKey convert maskitems data).mpr h)
    simp only [hn, if_false]
    refine ⟨?_, ?_, ?_⟩
    · simp only [iff_false_intro hne, iff_false]
      split <;> simp
    · simp only [iff_false_intro hn, iff_false]
      split <;> simp
    · intro _
      split
      · exact ⟨1, rfl⟩
      · exact ⟨_, rfl⟩

/-- Claim C1: whenever normalization succeeds (n > 0), the coefficient is
1 when `Do = 0`; when `Do ≠ 0` it is `1 − Do/De`, except that it is also
1 when `De = 0`; in particular, on any pairable mapping in which every
item's ratings are all identical (and the metric is zero on the
diagonal), the result is exactly 1. -/
theorem alpha_coefficient_branches [DecidableEq α] [DecidableEq β] (toKey : ℕ → α)
    (data : List (RatingGroup α β)) (metric : ℚ → ℚ → ℚ) (npm : Bool)
    (convert : β → ℚ) (maskitems : List β)
    (h : totalValues (pairableUnits toKey convert maskitems data) ≠ 0) :
    (alphaDo toKey data metric npm convert maskitems = 0
      → krippendorff_alpha toKey data metric npm convert maskitems = Except.ok 1)
    ∧ (alphaDo toKey data metric npm convert maskitems ≠ 0
      → alphaDe toKey data metric npm convert maskitems = 0
      → krippendorff_alpha toKey data metric npm convert maskitems = Except.ok 1)
    ∧ (alphaDo toKey data metric npm convert maskitems ≠ 0
      → alphaDe toKey data metric npm convert maskitems ≠ 0
      → krippendorff_alpha toKey data metric npm convert maskitems
          = Except.ok (1 - alphaDo toKey data metric npm convert maskitems
              / alphaDe toKey data metric npm convert maskitems))
    ∧ ((∀ p ∈ pairableUnits toKey convert maskitems data, ∀ x ∈ p.2, ∀ y ∈ p.2, x = y)
      → (∀ c, metric c c = 0)
      → krippendorff_alpha toKey data metric npm convert maskitems = Except.ok 1) := by
  have halpha : krippendorff_alpha toKey data metric npm convert maskitems
      = if alphaDo toKey data metric npm convert maskitems = 0 then Except.ok 1
        else Except.ok
          (if alphaDo toKey data metric npm convert maskitems ≠ 0
              ∧ alphaDe toKey data metric npm convert maskitems ≠ 0
            then 1 - alphaDo toKey data metric npm convert maskitems
                / alphaDe toKey data metric npm convert maskitems
            else 1) := by
    unfold krippendorff_alpha
    simp only [h, if_false]
    rfl
  refine ⟨?_, ?_, ?_, ?_⟩
  · intro h0
    rw [halpha, if_pos h0]
  · intro h0 hde
    rw [halpha, if_neg h0]
    simp [hde]
  · intro h0 hde
    rw [halpha, if_neg h0]
    simp [h0, hde]
  · intro hconst hdiag
    have hDo : alphaDo toKey data metric npm convert maskitems = 0 := by
      rw [alphaDo, observedNum_eq_sum]
      have : (List.map (fun p => duCalc metric npm p.2 / ((p.2.length : ℚ) - 1))
          (pairableUnits toKey convert maskitems data)).sum = 0 := by
        apply List.sum_eq_zero
        intro x hx
        obtain ⟨p, hp, rfl⟩ := List.mem_map.mp hx
        have hdu : duCalc metric npm p.2 = 0 := by
          rw [duCalc_eq_scalar]
          simp only [duCalc, Bool.false_eq_true, if_false]
          apply List.sum_eq_zero
          intro y hy
          obtain ⟨gi, hgi, rfl⟩ := List.mem_map.mp hy
          apply List.sum_eq_zero
          intro z hz
          obtain ⟨gj, hgj, rfl⟩ := List.mem_map.mp hz
          rw [hconst p hp gi hgi gj hgj]
          exact hdiag gj
        rw [hdu, zero_div]
      rw [this, zero_div]
    rw [halpha, if_pos hDo]

theorem alpha_coefficient_branches_witness :
    totalValues (pairableUnits (id : ℕ → ℕ) (id : ℚ → ℚ) []
        [RatingGroup.keyed [((0 : ℕ), (1 : ℚ)), (1, 2)], RatingGroup.keyed [(0, 1), (1, 2)]]) ≠ 0
    ∧ ((alphaDo (id : ℕ → ℕ)
          [RatingGroup.keyed [((0 : ℕ), (1 : ℚ)), (1, 2)], RatingGroup.keyed [(0, 1), (1, 2)]]
          interval_metric false id [] = 0
        → krippendorff_alpha (id : ℕ → ℕ)
            [RatingGroup.keyed [((0 : ℕ), (1 : ℚ)), (1, 2)], RatingGroup.keyed [(0, 1), (1, 2)]]
            interval_metric false id [] = Except.ok 1)
      ∧ (alphaDo (id : ℕ → ℕ)
          [RatingGroup.keyed [((0 : ℕ), (1 : ℚ)), (1, 2)], RatingGroup.keyed [(0, 1), (1, 2)]]
          interval_metric false id [] ≠ 0
        → alphaDe (id : ℕ → ℕ)
            [RatingGroup.keyed [((0 : ℕ), (1 : ℚ)), (1, 2)], RatingGroup.keyed [(0, 1), (1, 2)]]
            interval_metric false id [] = 0
        → krippendorff_alpha (id : ℕ → ℕ)
            [RatingGroup.keyed [((0 : ℕ), (1 : ℚ)), (1, 2)], RatingGroup.keyed [(0, 1), (1, 2)]]
            interval_metric false id [] = Except.ok 1)
      ∧ (alphaDo (id : ℕ → ℕ)
          [RatingGroup.keyed [((0 : ℕ), (1 : ℚ)), (1, 2)], RatingGroup.keyed [(0, 1), (1, 2)]]
          interval_metric false id [] ≠ 0
        → alphaDe (id : ℕ → ℕ)
            [RatingGroup.keyed [((0 : ℕ), (1 : ℚ)), (1, 2)], RatingGroup.keyed [(0, 1), (1, 2)]]
            interval_metric false id [] ≠ 0
        → krippendorff_alpha (id : ℕ → ℕ)
            [RatingGroup.keyed [((0 : ℕ), (1 : ℚ)), (1, 2)], RatingGroup.keyed [(0, 1), (1, 2)]]
            interval_metric false id []
            = Except.ok (1 - alphaDo (id : ℕ → ℕ)
                [RatingGroup.keyed [((0 : ℕ), (1 : ℚ)), (1, 2)], RatingGroup.keyed [(0, 1), (1, 2)]]
                interval_metric false id []
                / alphaDe (id : ℕ → ℕ)
                  [RatingGroup.keyed [((0 : ℕ), (1 : ℚ)), (1, 2)],
                    RatingGroup.keyed [(0, 1), (1, 2)]]
                  interval_metric false id []))
      ∧ ((∀ p ∈ pairableUnits (id : ℕ → ℕ) (id : ℚ → ℚ) []
            [RatingGroup.keyed [((0 : ℕ), (1 : ℚ)), (1, 2)], RatingGroup.keyed [(0, 1), (1, 2)]],
            ∀ x ∈ p.2, ∀ y ∈ p.2, x = y)
        → (∀ c, interval_metric c c = 0)
        → krippendorff_alpha (id : ℕ → ℕ)
            [RatingGroup.keyed [((0 : ℕ), (1 : ℚ)), (1, 2)], RatingGroup.keyed [(0, 1), (1, 2)]]
            interval_metric false id [] = Except.ok 1)) := by
  constructor
  · simp [pairableUnits, normalizeUnits, groupPairs, processPair, addRating, totalValues]
  · exact alpha_coefficient_branches (id : ℕ → ℕ)
      [RatingGroup.keyed [((0 : ℕ), (1 : ℚ)), (1, 2)], RatingGroup.keyed [(0, 1), (1, 2)]]
      interval_metric false id []
      (by simp [pairableUnits, normalizeUnits, groupPairs, processPair, addRating, totalValues])

/-! ### Claim C5: keyed and positional input forms -/

/-- The keyed form corresponding to a group: a keyed group is unchanged,
a positional sequence becomes the mapping whose key for position i is the
synthesized integer key i (same values, same missing entries). -/
def toKeyedForm (toKey : ℕ → α) : RatingGroup α β → RatingGroup α β
  | RatingGroup.keyed kvs => RatingGroup.keyed kvs
  | RatingGroup.positional s => RatingGroup.keyed (s.enum.map fun p => (toKey p.1, p.2))

theorem groupPairs_toKeyedForm (toKey : ℕ → α) (d : RatingGroup α β) :
    groupPairs toKey (toKeyedForm toKey d) = groupPairs toKey d := by
  cases d <;> rfl

/-- Claim C5: a dataset given as mappings and the equivalent dataset given
as positional sequences (position i ↔ key i, same values and missing
entries) produce an identical alpha, because the normalizer uses
key-value pairs when available and otherwise synthesizes integer
positional keys. -/
theorem keyed_positional_same_alpha [DecidableEq α] [DecidableEq β] (toKey : ℕ → α)
    (data : List (RatingGroup α β)) (metric : ℚ → ℚ → ℚ) (npm : Bool)
    (convert : β → ℚ) (maskitems : List β) :
    krippendorff_alpha toKey (data.map (toKeyedForm toKey)) metric npm convert maskitems
      = krippendorff_alpha toKey data metric npm convert maskitems := by
  have hnorm : normalizeUnits toKey convert maskitems (data.map (toKeyedForm toKey))
      = normalizeUnits toKey convert maskitems data := by
    unfold normalizeUnits
    rw [List.foldl_map]
    congr 1
    funext units d
    rw [groupPairs_toKeyedForm]
  unfold krippendorff_alpha pairableUnits
  rw [hnorm]

/-! ### Claim C9: the concrete two-coder scenario -/

/-- Two coders over items A = 0 and B = 1: coder1 gives A:1, B:1 and
coder2 gives A:1, B:5. -/
def dataC9 : List (RatingGroup ℕ ℚ) :=
  [RatingGroup.keyed [(0, 1), (1, 1)], RatingGroup.keyed [(0, 1), (1, 5)]]

/-- Claim C9 refuted as stated: on the concrete two-coder input with the
nominal metric, the observed disagreement `Do` computed by the code is
1/2, not the claimed 0.125 = 1/8. -/
theorem concrete_scenario_Do_not_eighth :
    alphaDo (id : ℕ → ℕ) dataC9 nominal_metric false id [] = 1 / 2
    ∧ alphaDo (id : ℕ → ℕ) dataC9 nominal_metric false id [] ≠ 1 / 8 := by
  have h : alphaDo (id : ℕ → ℕ) dataC9 nominal_metric false id [] = 1 / 2 := by
    simp [alphaDo, pairableUnits, normalizeUnits, dataC9, groupPairs, processPair,
      addRating, observedNum, duCalc, totalValues, nominal_metric]
    norm_num
  refine ⟨h, ?_⟩
  rw [h]
  norm_num

/-- Claim C9 as amended: on the concrete two-coder input with the nominal
metric, item A = 0 contributes ordered-pair distance sum 0 and item
B = 1 contributes 2 (two ordered disagreeing pairs of distance 1), the
pairable count n is 4, the observed disagreement `Do` is 1/2 (not
0.125), and the returned alpha is 0, which is strictly less than 1. -/
theorem concrete_scenario_amended :
    pairableUnits (id : ℕ → ℕ) (id : ℚ → ℚ) [] dataC9 = [(0, [1, 1]), (1, [1, 5])]
    ∧ orderedPairSum nominal_metric [(1 : ℚ), 1] [(1 : ℚ), 1] = 0
    ∧ orderedPairSum nominal_metric [(1 : ℚ), 5] [(1 : ℚ), 5] = 2
    ∧ totalValues (pairableUnits (id : ℕ → ℕ) (id : ℚ → ℚ) [] dataC9) = 4
    ∧ alphaDo (id : ℕ → ℕ) dataC9 nominal_metric false id [] = 1 / 2
    ∧ krippendorff_alpha (id : ℕ → ℕ) dataC9 nominal_metric false id [] = Except.ok 0
    ∧ krippendorff_alpha (id : ℕ → ℕ) dataC9 nominal_metric true id [] = Except.ok 0
    ∧ ((0 : ℚ) < 1) := by
  refine ⟨?_, ?_, ?_, ?_, ?_, ?_, ?_, by norm_num⟩
  · simp [pairableUnits, normalizeUnits, dataC9, groupPairs, processPair, addRating]
  · simp [orderedPairSum, nominal_metric]
  · simp [orderedPairSum, nominal_metric]
    norm_num
  · simp [pairableUnits, normalizeUnits, dataC9, groupPairs, processPair, addRating, totalValues]
  · simp [alphaDo, pairableUnits, normalizeUnits, dataC9, groupPairs, processPair,
      addRating, observedNum, duCalc, totalValues, nominal_metric]
    norm_num
  · simp [krippendorff_alpha, pairableUnits, normalizeUnits, dataC9, groupPairs, processPair,
      addRating, observedNum, expectedNum, duCalc, deCalc, totalValues, nominal_metric]
    norm_num
  · simp [krippendorff_alpha, pairableUnits, normalizeUnits, dataC9, groupPairs, processPair,
      addRating, observedNum, expectedNum, duCalc, deCalc, totalValues, nominal_metric]
    norm_num

/-! ### Claim C10: the divisions of the disagreement loops are safe -/

/-- Claim C10: in every invocation that does not raise the
insufficient-data error, every rating list kept in the pairable mapping
has at least two entries and n is at least 2, so neither the per-item
division by (k − 1) nor the division by n·(n − 1) divides by zero. -/
theorem no_division_by_zero [DecidableEq α] [DecidableEq β] (toKey : ℕ → α)
    (data : List (RatingGroup α β)) (metric : ℚ → ℚ → ℚ) (npm : Bool)
    (convert : β → ℚ) (maskitems : List β)
    (h : ∃ r, krippendorff_alpha toKey data metric npm convert maskitems = Except.ok r) :
    2 ≤ totalValues (pairableUnits toKey convert maskitems data)
    ∧ (∀ p ∈ pairableUnits toKey convert maskitems data,
        2 ≤ p.2.length ∧ ((p.2.length : ℚ) - 1 ≠ 0))
    ∧ ((totalValues (pairableUnits toKey convert maskitems data) : ℚ)
        * ((totalValues (pairableUnits toKey convert maskitems data) : ℚ) - 1) ≠ 0) := by
  have hn : totalValues (pairableUnits toKey convert maskitems data) ≠ 0 := by
    intro h0
    obtain ⟨r, hr⟩ := h
    unfold krippendorff_alpha at hr
    rw [if_pos h0] at hr
    exact Except.noConfusion hr
  have hmem : ∀ p ∈ pairableUnits toKey convert maskitems data,
      2 ≤ p.2.length ∧ ((p.2.length : ℚ) - 1 ≠ 0) := by
    intro p hp
    have hlen : 1 < p.2.length := by
      have := List.of_mem_filter hp
      simpa using this
    refine ⟨hlen, ?_⟩
    intro heq
    have h1 : ((p.2.length : ℚ)) = 1 := by linarith
    have h2 : p.2.length = 1 := by exact_mod_cast h1
    omega
  have hne : pairableUnits toKey convert maskitems data ≠ [] := by
    intro h0
    exact hn ((totalValues_eq_zero_iff toKey convert maskitems data).mpr h0)
  obtain ⟨p, hp⟩ := List.exists_mem_of_ne_nil _ hne
  have hn2 : 2 ≤ totalValues (pairableUnits toKey convert maskitems data) := by
    have hle : p.2.length ≤ totalValues (pairableUnits toKey convert maskitems data) := by
      apply List.single_le_sum (fun x _ => Nat.zero_le x)
      exact List.mem_map.mpr ⟨p, hp, rfl⟩
    have := (hmem p hp).1
    omega
  refine ⟨hn2, hmem, ?_⟩
  have hq : (2 : ℚ) ≤ (totalValues (pairableUnits toKey convert maskitems data) : ℚ) := by
    exact_mod_cast hn2
  apply mul_ne_zero
  · intro h0
    rw [h0] at hq
    norm_num at hq
  · intro h0
    have : (totalValues (pairableUnits toKey convert maskitems data) : ℚ) = 1 := by linarith
    rw [this] at hq
    norm_num at hq

/-- Two coders over two items with interval metric, used to instantiate
the safety claim at a concrete non-erroring invocation. -/
def dataC10 : List (RatingGroup ℕ ℚ) :=
  [RatingGroup.keyed [(0, 1), (1, 2)], RatingGroup.keyed [(0, 3), (1, 4)]]

theorem no_division_by_zero_witness :
    2 ≤ totalValues (pairableUnits (id : ℕ → ℕ) (id : ℚ → ℚ) [] dataC10)
    ∧ (∀ p ∈ pairableUnits (id : ℕ → ℕ) (id : ℚ → ℚ) [] dataC10,
        2 ≤ p.2.length ∧ ((p.2.length : ℚ) - 1 ≠ 0))
    ∧ ((totalValues (pairableUnits (id : ℕ → ℕ) (id : ℚ → ℚ) [] dataC10) : ℚ)
        * ((totalValues (pairableUnits (id : ℕ → ℕ) (id : ℚ → ℚ) [] dataC10) : ℚ) - 1) ≠ 0) :=
  no_division_by_zero (id : ℕ → ℕ) dataC10 interval_metric false id []
    ⟨-(1/5), by
      simp [krippendorff_alpha, pairableUnits, normalizeUnits, dataC10, groupPairs, processPair,
        addRating, observedNum, expectedNum, duCalc, deCalc, totalValues, interval_metric]
      norm_num⟩

/-! ### Claim C6: invariance under reordering the coder groups

The `units` dict is insertion-ordered, so permuting the outer coder
sequence permutes both the order of the items in the dict and the order
of each item's rating list.  We characterize the normalized dict by its
key list and the per-key value lists and show that the disagreement sums
only depend on those up to permutation. -/

/-- The keys of the units association list, in insertion order. -/
def keysOf (u : List (α × List ℚ)) : List α := u.map Prod.fst

/-- All values stored under a key, concatenated in list order. -/
def valsOf [DecidableEq α] : List (α × List ℚ) → α → List ℚ
  | [], _ => []
  | (k, l) :: rest, it => (if k = it then l else []) ++ valsOf rest it

theorem valsOf_eq_nil_of_not_mem [DecidableEq α] {u : List (α × List ℚ)} {it : α}
    (h : it ∉ keysOf u) : valsOf u it = [] := by
  induction u with
  | nil => rfl
  | cons p rest ih =>
    obtain ⟨k, l⟩ := p
    have hk : k ≠ it := by
      intro hk
      exact h (by simp [keysOf, hk])
    have hrest : it ∉ keysOf rest := by
      intro hmem
      exact h (by simp [keysOf] at hmem ⊢; exact Or.inr hmem)
    simp [valsOf, hk, ih hrest]

theorem keysOf_addRating [DecidableEq α] (u : List (α × List ℚ)) (it : α) (v : ℚ) :
    keysOf (addRating u it v) = if it ∈ keysOf u then keysOf u else keysOf u ++ [it] := by
  induction u with
  | nil => simp [addRating, keysOf]
  | cons p rest ih =>
    obtain ⟨k, l⟩ := p
    by_cases hk : k = it
    · subst hk
      simp [addRating, keysOf]
    · have hicons : it ∈ keysOf ((k, l) :: rest) ↔ it ∈ keysOf rest := by
        show it ∈ k :: keysOf rest ↔ it ∈ keysOf rest
        rw [List.mem_cons]
        exact or_iff_right fun hc => hk hc.symm
      have hkeys : keysOf (addRating ((k, l) :: rest) it v)
          = k :: keysOf (addRating rest it v) := by
        simp [addRating, if_neg hk, keysOf]
      rw [hkeys, ih]
      by_cases hmem : it ∈ keysOf rest
      · rw [if_pos hmem, if_pos (hicons.mpr hmem)]
        rfl
      · rw [if_neg hmem, if_neg fun hc => hmem (hicons.mp hc)]
        rfl

theorem nodup_keysOf_addRating [DecidableEq α] {u : List (α × List ℚ)} (it : α) (v : ℚ)
    (h : (keysOf u).Nodup) : (keysOf (addRating u it v)).Nodup := by
  rw [keysOf_addRating]
  by_cases hmem : it ∈ keysOf u
  · simpa [hmem] using h
  · simp only [hmem, if_false]
    rw [List.nodup_append]
    exact ⟨h, List.nodup_singleton it, by simpa using hmem⟩

theorem valsOf_addRating_ne [DecidableEq α] (u : List (α × List ℚ)) {it it' : α} (v : ℚ)
    (h : it' ≠ it) : valsOf (addRating u it v) it' = valsOf u it' := by
  induction u with
  | nil => simp [addRating, valsOf, Ne.symm h]
  | cons p rest ih =>
    obtain ⟨k, l⟩ := p
    by_cases hk : k = it
    · subst hk
      simp [addRating, valsOf, Ne.symm h]
    · simp [addRating, hk, valsOf, ih]

theorem valsOf_addRating_self [DecidableEq α] {u : List (α × List ℚ)} (it : α) (v : ℚ)
    (h : (keysOf u).Nodup) : valsOf (addRating u it v) it = valsOf u it ++ [v] := by
  induction u with
  | nil => simp [addRating, valsOf]
  | cons p rest ih =>
    obtain ⟨k, l⟩ := p
    by_cases hk : k = it
    · subst hk
      have hcons : (k :: keysOf rest).Nodup := h
      rw [List.nodup_cons] at hcons
      simp [addRating, valsOf, valsOf_eq_nil_of_not_mem hcons.1]
    · have hcons : (k :: keysOf rest).Nodup := h
      rw [List.nodup_cons] at hcons
      simp [addRating, hk, valsOf, ih hcons.2]

/-- Every value list stored in the units dict is nonempty. -/
def allNonnil (u : List (α × List ℚ)) : Prop := ∀ p ∈ u, p.2 ≠ []

theorem allNonnil_addRating [DecidableEq α] {u : List (α × List ℚ)} (it : α) (v : ℚ)
    (h : allNonnil u) : allNonnil (addRating u it v) := by
  induction u with
  | nil =>
    intro p hp
    simp [addRating] at hp
    subst hp
    simp
  | cons q rest ih =>
    obtain ⟨k, l⟩ := q
    by_cases hk : k = it
    · subst hk
      intro p hp
      simp [addRating] at hp
      rcases hp with hp | hp
      · subst hp; simp
      · exact h p (by simp [hp])
    · intro p hp
      simp only [addRating, if_neg hk, List.mem_cons] at hp
      rcases hp with hp | hp
      · subst hp
        exact h (k, l) (by simp)
      · exact ih (fun q hq => h q (by simp [hq])) p hp

theorem mem_keysOf_iff_valsOf_ne_nil [DecidableEq α] {u : List (α × List ℚ)} (it : α)
    (h : allNonnil u) : it ∈ keysOf u ↔ valsOf u it ≠ [] := by
  induction u with
  | nil => simp [keysOf, valsOf]
  | cons p rest ih =>
    obtain ⟨k, l⟩ := p
    have hrest := ih (fun q hq => h q (by simp [hq]))
    by_cases hk : k = it
    · subst hk
      have hl : l ≠ [] := h (k, l) (by simp)
      have hmem : k ∈ keysOf ((k, l) :: rest) := by
        show k ∈ k :: keysOf rest
        exact List.mem_cons_self k _
      have hvals : valsOf ((k, l) :: rest) k = l ++ valsOf rest k := by
        simp [valsOf]
      simp only [hvals, iff_true_intro hmem, true_iff]
      intro hnil
      exact hl (List.append_eq_nil.mp hnil).1
    · have h1 : valsOf ((k, l) :: rest) it = valsOf rest it := by
        simp [valsOf, hk]
      have h2 : it ∈ keysOf ((k, l) :: rest) ↔ it ∈ keysOf rest := by
        show it ∈ k :: keysOf rest ↔ it ∈ keysOf rest
        rw [List.mem_cons]
        exact or_iff_right fun hc => hk hc.symm
      rw [h1, h2]
      exact hrest

/-- The converted, unmasked values that a pair list contributes to item
`it`, in list order. -/
def pairVals [DecidableEq α] [DecidableEq β] (convert : β → ℚ) (maskitems : List β)
    (ps : List (α × β)) (it : α) : List ℚ :=
  ps.filterMap fun p => if p.1 = it ∧ p.2 ∉ maskitems then some (convert p.2) else none

theorem nodup_keysOf_foldl_processPair [DecidableEq α] [DecidableEq β] (convert : β → ℚ)
    (maskitems : List β) (ps : List (α × β)) {u : List (α × List ℚ)}
    (h : (keysOf u).Nodup) :
    (keysOf (ps.foldl (processPair convert maskitems) u)).Nodup := by
  induction ps generalizing u with
  | nil => exact h
  | cons p ps ih =>
    rw [List.foldl_cons]
    apply ih
    unfold processPair
    split
    · exact h
    · exact nodup_keysOf_addRating _ _ h

theorem allNonnil_foldl_processPair [DecidableEq α] [DecidableEq β] (convert : β → ℚ)
    (maskitems : List β) (ps : List (α × β)) {u : List (α × List ℚ)}
    (h : allNonnil u) :
    allNonnil (ps.foldl (processPair convert maskitems) u) := by
  induction ps generalizing u with
  | nil => exact h
  | cons p ps ih =>
    rw [List.foldl_cons]
    apply ih
    unfold processPair
    split
    · exact h
    · exact allNonnil_addRating _ _ h

theorem valsOf_foldl_processPair [DecidableEq α] [DecidableEq β] (convert : β → ℚ)
    (maskitems : List β) (ps : List (α × β)) {u : List (α × List ℚ)} (it : α)
    (h : (keysOf u).Nodup) :
    valsOf (ps.foldl (processPair convert maskitems) u) it
      = valsOf u it ++ pairVals convert maskitems ps it := by
  induction ps generalizing u with
  | nil => simp [pairVals]
  | cons p ps ih =>
    rw [List.foldl_cons]
    by_cases hmask : p.2 ∈ maskitems
    · have hstep : processPair convert maskitems u p = u := by
        simp [processPair, hmask]
      have hpv : pairVals convert maskitems (p :: ps) it = pairVals convert maskitems ps it := by
        simp [pairVals, List.filterMap_cons, hmask]
      rw [hstep, hpv, ih h]
    · have hstep : processPair convert maskitems u p = addRating u p.1 (convert p.2) := by
        simp [processPair, hmask]
      rw [hstep]
      have hnodup : (keysOf (addRating u p.1 (convert p.2))).Nodup :=
        nodup_keysOf_addRating _ _ h
      rw [ih hnodup]
      by_cases hit : p.1 = it
      · rw [hit, valsOf_addRating_self _ _ h]
        have hpv : pairVals convert maskitems (p :: ps) it
            = convert p.2 :: pairVals convert maskitems ps it := by
          simp [pairVals, List.filterMap_cons, hmask, hit]
        rw [hpv, List.append_assoc]
        rfl
      · rw [valsOf_addRating_ne _ _ fun hc => hit hc.symm]
        have hpv : pairVals convert maskitems (p :: ps) it = pairVals convert maskitems ps it := by
          simp [pairVals, List.filterMap_cons, hmask, hit]
        rw [hpv]

theorem foldl_flatMap {γ δ ε : Type} (f : γ → δ → γ) (g : ε → List δ) (l : List ε) (init : γ) :
    (l.flatMap g).foldl f init = l.foldl (fun acc d => (g d).foldl f acc) init := by
  induction l generalizing init with
  | nil => simp
  | cons a l ih => simp [List.flatMap_cons, List.foldl_append, ih]

theorem normalizeUnits_eq_foldl [DecidableEq α] [DecidableEq β] (toKey : ℕ → α)
    (convert : β → ℚ) (maskitems : List β) (data : List (RatingGroup α β)) :
    normalizeUnits toKey convert maskitems data
      = (data.flatMap (groupPairs toKey)).foldl (processPair convert maskitems) [] := by
  rw [normalizeUnits, foldl_flatMap]

theorem nodup_keysOf_normalizeUnits [DecidableEq α] [DecidableEq β] (toKey : ℕ → α)
    (convert : β → ℚ) (maskitems : List β) (data : List (RatingGroup α β)) :
    (keysOf (normalizeUnits toKey convert maskitems data)).Nodup := by
  rw [normalizeUnits_eq_foldl]
  exact nodup_keysOf_foldl_processPair convert maskitems _ (by simp [keysOf])

theorem allNonnil_normalizeUnits [DecidableEq α] [DecidableEq β] (toKey : ℕ → α)
    (convert : β → ℚ) (maskitems : List β) (data : List (RatingGroup α β)) :
    allNonnil (normalizeUnits toKey convert maskitems data) := by
  rw [normalizeUnits_eq_foldl]
  exact allNonnil_foldl_processPair convert maskitems _ (by intro p hp; simp at hp)

theorem valsOf_normalizeUnits [DecidableEq α] [DecidableEq β] (toKey : ℕ → α)
    (convert : β → ℚ) (maskitems : List β) (data : List (RatingGroup α β)) (it : α) :
    valsOf (normalizeUnits toKey convert maskitems data) it
      = pairVals convert maskitems (data.flatMap (groupPairs toKey)) it := by
  rw [normalizeUnits_eq_foldl]
  have := valsOf_foldl_processPair convert maskitems (data.flatMap (groupPairs toKey))
    (u := []) it (by simp [keysOf])
  simpa [valsOf] using this

/-- Equivalence of two units dicts: same (nodup) key sets up to order and,
per key, the same ratings up to order, with only nonempty value lists. -/
structure UnitsEquiv [DecidableEq α] (u1 u2 : List (α × List ℚ)) : Prop where
  nodup1 : (keysOf u1).Nodup
  nodup2 : (keysOf u2).Nodup
  nonnil1 : allNonnil u1
  nonnil2 : allNonnil u2
  keysPerm : (keysOf u1).Perm (keysOf u2)
  valsPerm : ∀ k, (valsOf u1 k).Perm (valsOf u2 k)

theorem map_eq_map_keysOf [DecidableEq α] {M : Type} (F : List ℚ → M)
    {u : List (α × List ℚ)} (h : (keysOf u).Nodup) :
    (u.map fun p => F p.2) = (keysOf u).map fun k => F (valsOf u k) := by
  induction u with
  | nil => rfl
  | cons p rest ih =>
    obtain ⟨k, l⟩ := p
    have hcons : (k :: keysOf rest).Nodup := h
    rw [List.nodup_cons] at hcons
    have hvk : valsOf ((k, l) :: rest) k = l := by
      simp [valsOf, valsOf_eq_nil_of_not_mem hcons.1]
    show F l :: (rest.map fun p => F p.2)
        = F (valsOf ((k, l) :: rest) k) :: ((keysOf rest).map fun k' => F (valsOf ((k, l) :: rest) k'))
    rw [hvk]
    congr 1
    rw [ih hcons.2]
    apply List.map_congr_left
    intro k' hk'
    have hk'ne : k ≠ k' := fun hc => hcons.1 (hc ▸ hk')
    simp [valsOf, hk'ne]

theorem sum_map_eq_of_unitsEquiv {M : Type} [AddCommMonoid M] [DecidableEq α]
    {u1 u2 : List (α × List ℚ)} (F : List ℚ → M)
    (hF : ∀ l l' : List ℚ, l.Perm l' → F l = F l') (h : UnitsEquiv u1 u2) :
    (u1.map fun p => F p.2).sum = (u2.map fun p => F p.2).sum := by
  rw [map_eq_map_keysOf F h.nodup1, map_eq_map_keysOf F h.nodup2]
  have hfun : (fun k => F (valsOf u1 k)) = fun k => F (valsOf u2 k) := by
    funext k
    exact hF _ _ (h.valsPerm k)
  rw [hfun]
  exact (h.keysPerm.map _).sum_eq

theorem sum_map_map_eq_of_unitsEquiv [DecidableEq α] {u1 u2 : List (α × List ℚ)}
    (G : List ℚ → List ℚ → ℚ)
    (hG : ∀ l1 l1' l2 l2' : List ℚ, l1.Perm l1' → l2.Perm l2' → G l1 l2 = G l1' l2')
    (h : UnitsEquiv u1 u2) :
    (u1.map fun p1 => (u1.map fun p2 => G p1.2 p2.2).sum).sum
      = (u2.map fun p1 => (u2.map fun p2 => G p1.2 p2.2).sum).sum := by
  have step1 : (u1.map fun p1 => (u1.map fun p2 => G p1.2 p2.2).sum).sum
      = (u2.map fun p1 => (u1.map fun p2 => G p1.2 p2.2).sum).sum := by
    apply sum_map_eq_of_unitsEquiv (fun l => (u1.map fun p2 => G l p2.2).sum) _ h
    intro l l' hp
    apply congrArg List.sum
    apply List.map_congr_left
    intro p2 _
    exact hG _ _ _ _ hp (List.Perm.refl _)
  rw [step1]
  apply congrArg List.sum
  apply List.map_congr_left
  intro p1 _
  exact sum_map_eq_of_unitsEquiv (fun l => G p1.2 l)
    (fun l l' hp => hG _ _ _ _ (List.Perm.refl _) hp) h

theorem valsOf_filter_pairable [DecidableEq α] {u : List (α × List ℚ)} (it : α)
    (h : (keysOf u).Nodup) :
    valsOf (u.filter fun p => 1 < p.2.length) it
      = if 1 < (valsOf u it).length then valsOf u it else [] := by
  induction u with
  | nil => simp [valsOf]
  | cons p rest ih =>
    obtain ⟨k, l⟩ := p
    have hcons : (k :: keysOf rest).Nodup := h
    rw [List.nodup_cons] at hcons
    by_cases hk : k = it
    · have hvrest : valsOf rest it = [] :=
        valsOf_eq_nil_of_not_mem (hk ▸ hcons.1)
      have hvu : valsOf ((k, l) :: rest) it = l := by
        simp [valsOf, hk, hvrest]
      have hvfrest : valsOf (rest.filter fun p => 1 < p.2.length) it = [] := by
        rw [ih hcons.2, hvrest]
        simp
      rw [List.filter_cons, hvu]
      by_cases hlen : 1 < l.length
      · rw [if_pos (by simpa using hlen)]
        have hstep : valsOf ((k, l) :: rest.filter fun p => 1 < p.2.length) it
            = l ++ valsOf (rest.filter fun p => 1 < p.2.length) it := by
          simp [valsOf, hk]
        rw [hstep, hvfrest, if_pos hlen]
        simp
      · rw [if_neg (by simpa using hlen)]
        rw [hvfrest, if_neg hlen]
    · have hvu : valsOf ((k, l) :: rest) it = valsOf rest it := by
        simp [valsOf, hk]
      rw [List.filter_cons, hvu]
      by_cases hlen : 1 < l.length
      · rw [if_pos (by simpa using hlen)]
        have hstep : valsOf ((k, l) :: rest.filter fun p => 1 < p.2.length) it
            = valsOf (rest.filter fun p => 1 < p.2.length) it := by
          simp [valsOf, hk]
        rw [hstep, ih hcons.2]
      · rw [if_neg (by simpa using hlen)]
        rw [ih hcons.2]

theorem mem_keysOf_filter_pairable [DecidableEq α] {u : List (α × List ℚ)} (k : α)
    (hn : (keysOf u).Nodup) (hnn : allNonnil u) :
    k ∈ keysOf (u.filter fun p => 1 < p.2.length) ↔ 1 < (valsOf u k).length := by
  have hnnf : allNonnil (u.filter fun p => 1 < p.2.length) := by
    intro p hp
    exact hnn p (List.mem_filter.mp hp).1
  rw [mem_keysOf_iff_valsOf_ne_nil k hnnf, valsOf_filter_pairable k hn]
  by_cases hc : 1 < (valsOf u k).length
  · rw [if_pos hc]
    simp only [iff_true_intro hc, iff_true]
    intro hnil
    rw [hnil] at hc
    simp at hc
  · rw [if_neg hc]
    simp [hc]

theorem unitsEquiv_filter [DecidableEq α] {u1 u2 : List (α × List ℚ)}
    (h : UnitsEquiv u1 u2) :
    UnitsEquiv (u1.filter fun p => 1 < p.2.length) (u2.filter fun p => 1 < p.2.length) := by
  have hnodup1 : (keysOf (u1.filter fun p => 1 < p.2.length)).Nodup :=
    ((List.filter_sublist u1).map Prod.fst).nodup h.nodup1
  have hnodup2 : (keysOf (u2.filter fun p => 1 < p.2.length)).Nodup :=
    ((List.filter_sublist u2).map Prod.fst).nodup h.nodup2
  refine ⟨hnodup1, hnodup2, ?_, ?_, ?_, ?_⟩
  · intro p hp
    exact h.nonnil1 p (List.mem_filter.mp hp).1
  · intro p hp
    exact h.nonnil2 p (List.mem_filter.mp hp).1
  · apply List.perm_of_nodup_nodup_toFinset_eq hnodup1 hnodup2
    apply Finset.ext
    intro k
    rw [List.mem_toFinset, List.mem_toFinset,
      mem_keysOf_filter_pairable k h.nodup1 h.nonnil1,
      mem_keysOf_filter_pairable k h.nodup2 h.nonnil2,
      (h.valsPerm k).length_eq]
  · intro k
    rw [valsOf_filter_pairable k h.nodup1, valsOf_filter_pairable k h.nodup2,
      (h.valsPerm k).length_eq]
    by_cases hc : 1 < (valsOf u2 k).length
    · rw [if_pos hc, if_pos hc]
      exact h.valsPerm k
    · rw [if_neg hc, if_neg hc]

theorem unitsEquiv_normalize [DecidableEq α] [DecidableEq β] (toKey : ℕ → α)
    (convert : β → ℚ) (maskitems : List β) {data1 data2 : List (RatingGroup α β)}
    (hperm : data1.Perm data2) :
    UnitsEquiv (normalizeUnits toKey convert maskitems data1)
      (normalizeUnits toKey convert maskitems data2) := by
  have hpairs : (data1.flatMap (groupPairs toKey)).Perm (data2.flatMap (groupPairs toKey)) :=
    hperm.flatMap_right _
  have hvals : ∀ k, (valsOf (normalizeUnits toKey convert maskitems data1) k).Perm
      (valsOf (normalizeUnits toKey convert maskitems data2) k) := by
    intro k
    rw [valsOf_normalizeUnits, valsOf_normalizeUnits]
    exact hpairs.filterMap _
  refine ⟨nodup_keysOf_normalizeUnits toKey convert maskitems data1,
    nodup_keysOf_normalizeUnits toKey convert maskitems data2,
    allNonnil_normalizeUnits toKey convert maskitems data1,
    allNonnil_normalizeUnits toKey convert maskitems data2, ?_, hvals⟩
  apply List.perm_of_nodup_nodup_toFinset_eq
    (nodup_keysOf_normalizeUnits toKey convert maskitems data1)
    (nodup_keysOf_normalizeUnits toKey convert maskitems data2)
  apply Finset.ext
  intro k
  rw [List.mem_toFinset, List.mem_toFinset,
    mem_keysOf_iff_valsOf_ne_nil k (allNonnil_normalizeUnits toKey convert maskitems data1),
    mem_keysOf_iff_valsOf_ne_nil k (allNonnil_normalizeUnits toKey convert maskitems data2)]
  have hlen := (hvals k).length_eq
  rw [ne_eq, ne_eq, ← List.length_eq_zero, ← List.length_eq_zero, hlen]

theorem orderedPairSum_perm (m : ℚ → ℚ → ℚ) {l1 l1' l2 l2' : List ℚ}
    (h1 : l1.Perm l1') (h2 : l2.Perm l2') :
    (l1.map fun a => (l2.map fun b => m a b).sum).sum
      = (l1'.map fun a => (l2'.map fun b => m a b).sum).sum := by
  have step1 : (l1.map fun a => (l2.map fun b => m a b).sum).sum
      = (l1.map fun a => (l2'.map fun b => m a b).sum).sum := by
    apply congrArg List.sum
    apply List.map_congr_left
    intro a _
    exact (h2.map _).sum_eq
  rw [step1]
  exact (h1.map _).sum_eq

theorem duCalc_perm (metric : ℚ → ℚ → ℚ) (npm : Bool) {l l' : List ℚ} (h : l.Perm l') :
    duCalc metric npm l = duCalc metric npm l' := by
  rw [duCalc_eq_scalar metric npm l, duCalc_eq_scalar metric npm l']
  simp only [duCalc, Bool.false_eq_true, if_false]
  exact orderedPairSum_perm metric h h

theorem deCalc_perm (metric : ℚ → ℚ → ℚ) (npm : Bool) {l1 l1' l2 l2' : List ℚ}
    (h1 : l1.Perm l1') (h2 : l2.Perm l2') :
    deCalc metric npm l1 l2 = deCalc metric npm l1' l2' := by
  rw [deCalc_eq_scalar metric npm l1 l2, deCalc_eq_scalar metric npm l1' l2']
  simp only [deCalc, Bool.false_eq_true, if_false]
  exact orderedPairSum_perm metric h1 h2

/-- Claim C6: for every dataset, every permutation of the outer sequence
of coder rating groups, and every symmetric metric, `krippendorff_alpha`
returns the same alpha on the permuted dataset as on the original.  (The
proof does not even need the symmetry of the metric, because the
disagreement sums range over all ordered pairs.) -/
theorem alpha_coder_order_invariant [DecidableEq α] [DecidableEq β] (toKey : ℕ → α)
    {data1 data2 : List (RatingGroup α β)} (metric : ℚ → ℚ → ℚ) (npm : Bool)
    (convert : β → ℚ) (maskitems : List β)
    (hperm : data1.Perm data2) (hsym : ∀ a b, metric a b = metric b a) :
    krippendorff_alpha toKey data1 metric npm convert maskitems
      = krippendorff_alpha toKey data2 metric npm convert maskitems := by
  have hequiv : UnitsEquiv (pairableUnits toKey convert maskitems data1)
      (pairableUnits toKey convert maskitems data2) :=
    unitsEquiv_filter (unitsEquiv_normalize toKey convert maskitems hperm)
  have hn : totalValues (pairableUnits toKey convert maskitems data1)
      = totalValues (pairableUnits toKey convert maskitems data2) := by
    unfold totalValues
    exact sum_map_eq_of_unitsEquiv (fun l => l.length) (fun l l' hp => hp.length_eq) hequiv
  have hdo : observedNum metric npm (pairableUnits toKey convert maskitems data1)
      = observedNum metric npm (pairableUnits toKey convert maskitems data2) := by
    rw [observedNum_eq_sum, observedNum_eq_sum]
    exact sum_map_eq_of_unitsEquiv (fun l => duCalc metric npm l / ((l.length : ℚ) - 1))
      (fun l l' hp => by
        show duCalc metric npm l / ((l.length : ℚ) - 1)
            = duCalc metric npm l' / ((l'.length : ℚ) - 1)
        rw [duCalc_perm metric npm hp, hp.length_eq]) hequiv
  have hde : expectedNum metric npm (pairableUnits toKey convert maskitems data1)
      = expectedNum metric npm (pairableUnits toKey convert maskitems data2) := by
    rw [expectedNum_eq_sum, expectedNum_eq_sum]
    exact sum_map_map_eq_of_unitsEquiv (deCalc metric npm)
      (fun l1 l1' l2 l2' h1 h2 => deCalc_perm metric npm h1 h2) hequiv
  unfold krippendorff_alpha
  simp only [hn, hdo, hde]

/-- The C9 dataset with the two coders listed in the opposite order. -/
def dataC6 : List (RatingGroup ℕ ℚ) :=
  [RatingGroup.keyed [(0, 1), (1, 5)], RatingGroup.keyed [(0, 1), (1, 1)]]

theorem alpha_coder_order_invariant_witness :
    krippendorff_alpha (id : ℕ → ℕ)
        [RatingGroup.keyed [((0 : ℕ), (1 : ℚ)), (1, 1)], RatingGroup.keyed [(0, 1), (1, 5)]]
        nominal_metric false id []
      = krippendorff_alpha (id : ℕ → ℕ) dataC6 nominal_metric false id [] :=
  alpha_coder_order_invariant (id : ℕ → ℕ) nominal_metric false id []
    (List.Perm.swap (RatingGroup.keyed [(0, 1), (1, 5)]) (RatingGroup.keyed [(0, 1), (1, 1)]) [])
    (fun a b => by simp [nominal_metric, ne_comm])

end CalScore
